import Mathlib

/-!
Verification development for the stylesheet-to-design-tree enhancement engine
(src/services/cssParser.ts and src/services/cssEnhancer.ts).

Modelling conventions:
* JavaScript numbers are modelled as exact rationals (ℚ).  Every arithmetic
  operation the engine performs (additions, multiplications by fixed decimal
  weights, divisions by list lengths, comparisons) is exact on the inputs used
  here, so ℚ is a faithful carrier.  Arithmetic is expressed through small
  executable wrappers (qadd, qmul, ...) built on mkRat, because the Rat
  operations of the ambient library are irreducible and would block kernel
  evaluation; bridge lemmas identify each wrapper with the ordinary field
  operation on ℚ.
* Strings are Lean Strings; all scanning (regex-like matching, splitting,
  lowercasing, substring tests) is implemented over their character lists by
  structurally recursive executable functions.
* Wall-clock readings (performance.now()) are passed in as explicit
  parameters; Date-based output is outside the modelled result (see the
  comment on CSSEnhancer.enhance).
-/

/-! ## Executable rational arithmetic wrappers -/

/-- Exact rational addition, written through mkRat so it evaluates in the
kernel. -/
def qadd (a b : ℚ) : ℚ := mkRat (a.num * b.den + b.num * a.den) (a.den * b.den)

/-- Exact rational multiplication through mkRat. -/
def qmul (a b : ℚ) : ℚ := mkRat (a.num * b.num) (a.den * b.den)

/-- Exact rational subtraction through mkRat. -/
def qsub (a b : ℚ) : ℚ := mkRat (a.num * b.den - b.num * a.den) (a.den * b.den)

/-- Division of a rational by a natural number (the engine only ever divides
by list lengths). -/
def qdivN (a : ℚ) (n : ℕ) : ℚ := mkRat a.num (a.den * n)

/-- Embedding of a natural number count into ℚ. -/
def qofN (n : ℕ) : ℚ := mkRat n 1

/-- Executable less-or-equal test on ℚ by cross multiplication (denominators
of Rat are always positive). -/
def qleB (a b : ℚ) : Bool := a.num * b.den ≤ b.num * a.den

/-- Executable strict less-than test on ℚ. -/
def qltB (a b : ℚ) : Bool := a.num * b.den < b.num * a.den

/-- Executable minimum, as JavaScript Math.min on non-NaN inputs. -/
def qmin (a b : ℚ) : ℚ := if qleB a b then a else b

/-- Executable negation through mkRat. -/
def qneg (a : ℚ) : ℚ := mkRat (-a.num) a.den

/-- Executable absolute value, as JavaScript Math.abs on non-NaN inputs. -/
def qabs (a : ℚ) : ℚ := if qleB 0 a then a else qneg a

/-! ## Executable string helpers

JavaScript string operations used by the engine, implemented over character
lists.  The source always works on ASCII stylesheet text and node names, for
which these agree with the JS semantics. -/

/-- Whitespace as matched by the \s regex class and String.prototype.trim on
the ASCII range. -/
def isWS (c : Char) : Bool := c == ' ' || c == '\t' || c == '\n' || c == '\r'

/-- JavaScript String.prototype.trim. -/
def trimChars (l : List Char) : List Char :=
  ((l.dropWhile isWS).reverse.dropWhile isWS).reverse

/-- Prefix test on character lists. -/
def isPrefB : List Char → List Char → Bool
  | [], _ => true
  | _ :: _, [] => false
  | a :: as, b :: bs => a == b && isPrefB as bs

/-- Substring occurrence test on character lists; isInfB pat hay is true iff
pat occurs contiguously in hay.  The empty pattern occurs in every string,
matching the semantics of JavaScript String.prototype.includes. -/
def isInfB (pat : List Char) : List Char → Bool
  | [] => pat.isEmpty
  | c :: rest => isPrefB pat (c :: rest) || isInfB pat rest

/-- JavaScript a.includes(b). -/
def includesB (a b : String) : Bool := isInfB b.toList a.toList

/-- JavaScript String.prototype.toLowerCase on the ASCII range. -/
def strLower (s : String) : String := ⟨s.toList.map Char.toLower⟩

/-- Splitting on a character class with a + quantifier, as
str.split(/[...]+/): maximal runs of separator characters act as single
delimiters, and a leading or trailing run produces a leading or trailing
empty piece.  srGo carries the current piece (reversed) and whether the
previous character was part of a separator run. -/
def srGo (p : Char → Bool) (inRun : Bool) (acc : List Char) : List Char → List (List Char)
  | [] => [acc.reverse]
  | c :: rest =>
    if p c then
      if inRun then srGo p true [] rest
      else acc.reverse :: srGo p true [] rest
    else srGo p false (c :: acc) rest

/-- JavaScript s.split(regex run of the class p). -/
def splitRuns (p : Char → Bool) (s : String) : List (List Char) :=
  srGo p false [] s.toList

/-! ## Stable descending insertion sort

Array.prototype.sort with the comparator (a, b) => score(b) - score(a) is,
per the ECMAScript specification, a stable sort yielding elements in
descending score order with ties kept in original order.  That behaviour is
uniquely determined, and the insertion sort below implements it: an element
is inserted before the first element whose key is less-or-equal, hence after
every earlier element with the same key. -/

/-- Insert a before the first element b of l with f b ≤ f a. -/
def insertGe {α : Type} (f : α → ℚ) (a : α) : List α → List α
  | [] => [a]
  | b :: t => if qleB (f b) (f a) then a :: b :: t else b :: insertGe f a t

/-- Stable sort by descending key f. -/
def sortGeBy {α : Type} (f : α → ℚ) : List α → List α
  | [] => []
  | a :: t => insertGe f a (sortGeBy f t)

/-! ## Stylesheet parser (src/services/cssParser.ts) -/

/-- A parsed declaration: property, value, important flag, source line. -/
structure CSSProperty where
  property : String
  value : String
  important : Bool
  line : ℕ
deriving DecidableEq

/-- A parsed rule: selector, declarations, specificity, source position. -/
structure CSSRule where
  selector : String
  properties : List CSSProperty
  specificity : ℕ
  line : ℕ
  column : ℕ
deriving DecidableEq

/-- Parse statistics; processingTime is a wall-clock measurement modelled
as 0 (no claim concerns it). -/
structure CSSParseStatistics where
  totalRules : ℕ
  totalProperties : ℕ
  totalSelectors : ℕ
  processingTime : ℚ
deriving DecidableEq

/-- Result of CSSParser.parse. -/
structure CSSParseResult where
  rules : List CSSRule
  errors : List String
  warnings : List String
  statistics : CSSParseStatistics
  isValid : Bool
deriving DecidableEq

namespace CSSParser

/-- Text after the nearest comment-close marker, if any. -/
def afterClose : List Char → Option (List Char)
  | [] => none
  | '*' :: '/' :: rest => some rest
  | _ :: rest => afterClose rest

/-- Strip block comments, as the global non-greedy replace of /* ... */ in
the source: each comment opener is closed by the nearest following close
marker and removed; an opener with no close marker after it does not match
the pattern and is left in place verbatim.  Fuel is the input length; every
step consumes at least one character. -/
def stripCommentsF : ℕ → List Char → List Char
  | 0, l => l
  | _ + 1, [] => []
  | fuel + 1, '/' :: '*' :: rest =>
    match afterClose rest with
    | some rest2 => stripCommentsF fuel rest2
    | none => '/' :: '*' :: rest
  | fuel + 1, c :: rest => c :: stripCommentsF fuel rest

def stripComments (l : List Char) : List Char := stripCommentsF l.length l

/-- Scan for rule blocks, as the repeated exec of ([^{]+)\{([^}]+)\} in the
source.  A match takes the characters from the current position up to the
next open brace (which must be non-empty) as the raw selector and the
characters from there up to the next close brace (also non-empty) as the raw
body.  When the open brace is the first character, or the body would be
empty, no match starts at or before the brace and scanning resumes just
after it; when no close brace remains the scan is over (no later block could
close either). -/
def scanBlocksF : ℕ → List Char → List (List Char × List Char)
  | 0, _ => []
  | _ + 1, [] => []
  | fuel + 1, l =>
    let pre := l.takeWhile (fun c => !(c == '\x7b'))
    match l.dropWhile (fun c => !(c == '\x7b')) with
    | [] => []
    | _ :: afterBrace =>
      if pre.isEmpty then scanBlocksF fuel afterBrace
      else
        let body := afterBrace.takeWhile (fun c => !(c == '\x7d'))
        match afterBrace.dropWhile (fun c => !(c == '\x7d')) with
        | [] => []
        | _ :: afterBody =>
          if body.isEmpty then scanBlocksF fuel afterBrace
          else (pre, body) :: scanBlocksF fuel afterBody

def scanRuleBlocks (l : List Char) : List (List Char × List Char) :=
  scanBlocksF l.length l

/-- Characters of a property name, matching the class [a-zA-Z-]. -/
def isPropChar (c : Char) : Bool := c.isAlpha || c == '-'

/-- Scan declarations, as the repeated exec of
([a-zA-Z-]+)\s*:\s*([^;]+)(!important)?;? in the source.  A match needs a
property-name run, optional whitespace, a colon, and at least one character
strictly before the next semicolon or the end of input; the semicolon, when
present, is consumed.  Because ([^;]+) is greedy and nothing after it
forces backtracking, the optional (!important) group can never participate
in a match: any !important suffix is absorbed into the value capture, so
the important flag of every declaration is false. -/
def scanDeclsF : ℕ → List Char → List (String × String)
  | 0, _ => []
  | _ + 1, [] => []
  | fuel + 1, c :: rest =>
    if isPropChar c then
      let name := (c :: rest).takeWhile isPropChar
      let afterName := (c :: rest).dropWhile isPropChar
      match afterName.dropWhile isWS with
      | ':' :: afterColon =>
        let rawValue := afterColon.takeWhile (fun d => !(d == ';'))
        if rawValue.isEmpty then scanDeclsF fuel rest
        else
          let afterSemi := match afterColon.dropWhile (fun d => !(d == ';')) with
            | ';' :: t => t
            | t => t
          (⟨name⟩, ⟨trimChars rawValue⟩) :: scanDeclsF fuel afterSemi
      | _ => scanDeclsF fuel rest
    else scanDeclsF fuel rest

def scanDecls (s : String) : List (String × String) :=
  scanDeclsF s.toList.length s.toList

/-- Embedding of CSSParser.parsePropertiesEnhanced: each matched declaration
becomes a CSSProperty; the line counter advances by one per declaration; the
important flag is always false (see scanDeclsF). -/
def parsePropertiesEnhanced (declarations : String) (startLine : ℕ) : List CSSProperty :=
  (scanDecls declarations).enum.map
    (fun p => { property := p.2.1, value := p.2.2, important := false, line := startLine + p.1 })

/-- Embedding of CSSParser.calculateSpecificity: 100 per hash occurrence, 10
per dot, colon or open-bracket occurrence, and 1 per ASCII letter anywhere in the
selector — the lengths of the three global regex match lists in the
source. -/
def calculateSpecificity (selector : String) : ℕ :=
  (selector.toList.countP (fun c => c == '#')) * 100 +
  (selector.toList.countP (fun c => c == '.' || c == ':' || c == '[')) * 10 +
  (selector.toList.countP (fun c => c.isAlpha)) * 1

/-- The exec loop body of CSSParser.parse over the scanned blocks, carrying
lineNumber.  An empty (after trimming) selector or declaration body pushes a
warning and, because of the continue statement, does not advance lineNumber;
otherwise a rule is built and lineNumber increments.  Returns
(rules, warnings, totalProperties, totalSelectors); the selector-count
contribution of a rule is the length of selector.split(','), i.e. one more
than its comma count. -/
def parseLoop : List (List Char × List Char) → ℕ → List CSSRule × List String × ℕ × ℕ
  | [], _ => ([], [], 0, 0)
  | (preRaw, bodyRaw) :: rest, lineNumber =>
    let selChars := trimChars preRaw
    let declChars := trimChars bodyRaw
    if selChars.isEmpty || declChars.isEmpty then
      let r := parseLoop rest lineNumber
      (r.1, ("Empty rule at line " ++ toString lineNumber) :: r.2.1, r.2.2.1, r.2.2.2)
    else
      let selector : String := ⟨selChars⟩
      let properties := parsePropertiesEnhanced ⟨declChars⟩ lineNumber
      let rule : CSSRule :=
        { selector := selector, properties := properties,
          specificity := calculateSpecificity selector,
          line := lineNumber, column := 1 }
      let r := parseLoop rest (lineNumber + 1)
      (rule :: r.1, r.2.1, properties.length + r.2.2.1,
        (selector.toList.countP (fun c => c == ',') + 1) + r.2.2.2)

/-- Embedding of CSSParser.parse.  The try/catch wrappers in the source only
fire on an engine-internal exception, which the embedded scanners cannot
produce, so errors is always empty and isValid always true; the wall-clock
processingTime statistic is modelled as 0. -/
def parse (cssText : String) : CSSParseResult :=
  let cleanCSS := stripComments cssText.toList
  let r := parseLoop (scanRuleBlocks cleanCSS) 1
  { rules := r.1, errors := [], warnings := r.2.1,
    statistics :=
      { totalRules := r.1.length, totalProperties := r.2.2.1,
        totalSelectors := r.2.2.2, processingTime := 0 },
    isValid := true }

end CSSParser

/-! ## Design-tree data model (the attributes of src/types/figma read by the
enhancer) -/

/-- Solid-colour channels of a paint; the alpha channel is never read by the
enhancer. -/
structure PaintColor where
  r : ℚ
  g : ℚ
  b : ℚ
deriving DecidableEq

/-- One fill entry of a node. -/
structure Paint where
  type : String
  color : Option PaintColor
deriving DecidableEq

/-- Typography attributes of a node. -/
structure TypeStyle where
  fontSize : Option ℚ
  fontWeight : Option ℚ
  fontFamily : Option String
deriving DecidableEq

/-- Bounding-box geometry; only width is ever compared. -/
structure Rect where
  width : ℚ
  height : ℚ
deriving DecidableEq

/-- The attributes of one design node read by the enhancer.  fills is
optional because JavaScript distinguishes an absent fills attribute (falsy)
from an empty fills array (truthy). -/
structure NodeInfo where
  id : String
  name : String
  type : String
  fills : Option (List Paint)
  style : Option TypeStyle
  absoluteBoundingBox : Option Rect
deriving DecidableEq

/-- Ordered children in first-child/next-sibling form.  Lean 4.14 cannot
compile structural recursion over rose trees whose children sit in a List
field, so the forest is given as a plain inductive representing exactly the
same ordered trees; forestNodes recovers depth-first pre-order. -/
inductive Forest where
  | nil : Forest
  | node (info : NodeInfo) (children : Forest) (next : Forest) : Forest
deriving DecidableEq

/-- A design node: its attributes plus its ordered children. -/
structure FigmaNode where
  info : NodeInfo
  children : Forest
deriving DecidableEq

/-- All nodes of a forest in depth-first pre-order (node, then its subtree,
then its following siblings). -/
def forestNodes : Forest → List FigmaNode
  | .nil => []
  | .node i c rest => ⟨i, c⟩ :: (forestNodes c ++ forestNodes rest)

/-- Build a forest from an ordered list of nodes. -/
def Forest.ofList : List FigmaNode → Forest
  | [] => .nil
  | n :: rest => .node n.info n.children (Forest.ofList rest)

/-- The part of the design-document API response read by the enhancer. -/
structure FigmaApiResponse where
  document : FigmaNode
deriving DecidableEq

/-! ## Enhancer data model (src/services/cssEnhancer.ts interfaces) -/

/-- The mappingStrategy option: 'name' | 'class' | 'id' | 'hybrid'. -/
inductive MappingStrategy where
  | byName
  | byClass
  | byId
  | hybrid
deriving DecidableEq

/-- EnhancementOptions of the source. -/
structure EnhancementOptions where
  strictMatching : Bool
  ignoreColors : Bool
  ignoreTypography : Bool
  ignoreSpacing : Bool
  enableAutoMapping : Bool
  mappingStrategy : MappingStrategy
  minConfidence : ℚ
  maxSuggestions : ℕ
deriving DecidableEq

/-- The mappingMethod label: 'name' | 'class' | 'id' | 'auto' | 'manual'. -/
inductive MappingMethod where
  | byName
  | byClass
  | byId
  | auto
  | manual
deriving DecidableEq

/-- Conflict kinds. -/
inductive ConflictType where
  | color
  | typography
  | spacing
  | layout
  | effects
deriving DecidableEq

/-- Conflict severities. -/
inductive Severity where
  | low
  | medium
  | high
deriving DecidableEq

/-- A detected style conflict. -/
structure StyleConflict where
  type : ConflictType
  property : String
  figmaValue : String
  cssValue : String
  severity : Severity
  suggestion : String
deriving DecidableEq

/-- One node-to-rules mapping.  The optional conflicts field of the source
interface is never populated by the enhancer and is omitted. -/
structure NodeCSSMapping where
  nodeId : String
  nodeName : String
  nodeType : String
  cssRules : List CSSRule
  confidence : ℚ
  mappingMethod : MappingMethod
deriving DecidableEq

/-- The statistics block of the result; processingTime is the difference of
the two performance.now() readings. -/
structure EnhancementStatistics where
  totalNodes : ℕ
  mappedNodes : ℕ
  cssRules : ℕ
  conflicts : ℕ
  processingTime : ℚ
deriving DecidableEq

/-- Result of enhance.  The enhancedCode field of the source (a generated
JavaScript source string embedding the wall-clock date, assembled by string
templating in generateEnhancedCode) is presentational output not modelled
here; the specification's EnhancementResult record likewise omits it. -/
structure CSSEnhancementResult where
  mappingResults : List NodeCSSMapping
  coverage : ℚ
  conflicts : List StyleConflict
  suggestions : List String
  statistics : EnhancementStatistics
deriving DecidableEq

/-- The two ways enhance can throw: the explicit throw on an invalid parse,
and the TypeError raised by the misspelled method call (see simThrows). -/
inductive EnhanceErr where
  | parseFailed
  | typeErr
deriving DecidableEq

deriving instance DecidableEq for Except

namespace CSSEnhancer

/-- Embedding of the private getAllNodes: the node followed by all its
descendants in depth-first pre-order. -/
def getAllNodes (n : FigmaNode) : List FigmaNode := n :: forestNodes n.children

/-- Separator class of node-name tokens, the regex class [-_\s]. -/
def isNameSep (c : Char) : Bool := c == '-' || c == '_' || isWS c

/-- Separator class of selector tokens, the regex class [-_\s.#]. -/
def isSelSep (c : Char) : Bool :=
  c == '-' || c == '_' || isWS c || c == '.' || c == '#'

/-- Embedding of calculateNameMatchScore (both arguments arrive already
lowercased): the fraction of node-name tokens substring-related to some
selector token, over the larger token count. -/
def calculateNameMatchScore (nodeName selector : String) : ℚ :=
  let nameWords := splitRuns isNameSep nodeName
  let selectorWords := splitRuns isSelSep selector
  let matchCount := nameWords.countP (fun nameWord =>
    selectorWords.any (fun selWord => isInfB nameWord selWord || isInfB selWord nameWord))
  qdivN (qofN matchCount) (max nameWords.length selectorWords.length)

/-- Identifier characters of a class or id token, the class [a-zA-Z0-9-_]. -/
def isIdentChar (c : Char) : Bool := c.isAlpha || c.isDigit || c == '-' || c == '_'

/-- All matches of the global pattern mark[a-zA-Z][a-zA-Z0-9-_]* (the class
and id token extractors), returned without the leading mark character, which
the source strips with substring(1).  Fuel is the input length. -/
def markedTokensF (mark : Char) : ℕ → List Char → List (List Char)
  | 0, _ => []
  | _ + 1, [] => []
  | fuel + 1, c :: rest =>
    if c == mark then
      match rest with
      | [] => []
      | d :: rest2 =>
        if d.isAlpha then
          (d :: rest2.takeWhile isIdentChar) :: markedTokensF mark fuel (rest2.dropWhile isIdentChar)
        else markedTokensF mark fuel (d :: rest2)
    else markedTokensF mark fuel rest

def markedTokens (mark : Char) (s : String) : List (List Char) :=
  markedTokensF mark s.toList.length s.toList

/-- Embedding of calculateClassMatchScore: the count of .identifier tokens
substring-related to some node-name token, over the larger count. -/
def calculateClassMatchScore (nodeName selector : String) : ℚ :=
  let classSelectors := markedTokens '.' selector
  let nameWords := splitRuns isNameSep nodeName
  let matchCount := classSelectors.countP (fun cleanClass =>
    nameWords.any (fun word => isInfB word cleanClass || isInfB cleanClass word))
  qdivN (qofN matchCount) (max classSelectors.length nameWords.length)

/-- Embedding of calculateIdMatchScore, as the class score but over
identifier tokens marked with a hash. -/
def calculateIdMatchScore (nodeName selector : String) : ℚ :=
  let idSelectors := markedTokens '#' selector
  let nameWords := splitRuns isNameSep nodeName
  let matchCount := idSelectors.countP (fun cleanId =>
    nameWords.any (fun word => isInfB word cleanId || isInfB cleanId word))
  qdivN (qofN matchCount) (max idSelectors.length nameWords.length)

/-- Digit run to a natural number. -/
def digitsToNat (l : List Char) : ℕ :=
  l.foldl (fun acc c => acc * 10 + (c.toNat - '0'.toNat)) 0

/-- JavaScript parseFloat on the shapes the engine meets: optional leading
whitespace and sign, then decimal digits with an optional fractional part;
none models NaN.  Exponent notation is not modelled; no stylesheet value in
any claim uses it. -/
def jsParseFloat (s : String) : Option ℚ :=
  let l := s.toList.dropWhile isWS
  let sgn : ℤ := match l with
    | '-' :: _ => -1
    | _ => 1
  let l2 := match l with
    | '-' :: t => t
    | '+' :: t => t
    | t => t
  let ip := l2.takeWhile Char.isDigit
  let fp := match l2.dropWhile Char.isDigit with
    | '.' :: t => t.takeWhile Char.isDigit
    | _ => []
  if ip.isEmpty && fp.isEmpty then none
  else some (qadd (mkRat (sgn * digitsToNat ip) 1) (mkRat (sgn * digitsToNat fp) (10 ^ fp.length)))

/-- Embedding of isTypographySimilar: only font-size with a truthy (present,
non-zero) Figma fontSize compares; a NaN parse (none) compares false. -/
def isTypographySimilar (figmaStyle : TypeStyle) (cssProp : CSSProperty) : Bool :=
  match figmaStyle.fontSize with
  | some figmaSize =>
    if cssProp.property == "font-size" && !(decide (figmaSize = 0)) then
      match jsParseFloat cssProp.value with
      | some cssSize => qltB (qabs (qsub figmaSize cssSize)) (qofN 2)
      | none => false
    else false
  | none => false

/-- Embedding of isSpacingSimilar: only width with a truthy boundingBox
width compares; a NaN parse compares false. -/
def isSpacingSimilar (boundingBox : Rect) (cssProp : CSSProperty) : Bool :=
  if cssProp.property == "width" && !(decide (boundingBox.width = 0)) then
    match jsParseFloat cssProp.value with
    | some cssWidth => qltB (qabs (qsub boundingBox.width cssWidth)) (qofN 5)
    | none => false
  else false

/-- Declared properties inspected by the colour-similarity pass: name
containing 'color' or 'background'. -/
def isColorSimProp (p : CSSProperty) : Bool :=
  includesB p.property "color" || includesB p.property "background"

/-- Line 240 of cssEnhancer.ts invokes this.areColorssimilar, but the class
only defines a method named areColorsimilar, so evaluating the call raises
a TypeError.  The call is reached exactly when the colour-similarity branch
iterates a non-empty list of colour-like declared properties: colours not
ignored, the node's fills attribute present (an empty fills array is still
truthy), and the rule declaring some property whose name contains 'color'
or 'background'. -/
def simThrows (node : FigmaNode) (rule : CSSRule) (options : EnhancementOptions) : Bool :=
  !options.ignoreColors && node.info.fills.isSome && rule.properties.any isColorSimProp

/-- Value of calculateStyleSimilarityScore when it does not throw (see
simThrows: on every non-throwing invocation the colour pass iterates an
empty property list and performs zero checks).  Typography adds 0.2 per
similar declared font property, spacing 0.1 per similar declared sizing
property; the sum is divided by the number of checks performed, or is 0
when no check ran. -/
def calculateStyleSimilarityScore (node : FigmaNode) (rule : CSSRule)
    (options : EnhancementOptions) : ℚ :=
  let typographyProps :=
    if !options.ignoreTypography && node.info.style.isSome then
      rule.properties.filter (fun prop =>
        prop.property == "font-size" || prop.property == "font-weight" ||
        prop.property == "font-family" || prop.property == "line-height")
    else []
  let spacingProps :=
    if !options.ignoreSpacing && node.info.absoluteBoundingBox.isSome then
      rule.properties.filter (fun prop =>
        prop.property == "margin" || prop.property == "padding" ||
        prop.property == "gap" || prop.property == "width" || prop.property == "height")
    else []
  let typScore := typographyProps.foldl
    (fun acc prop =>
      match node.info.style with
      | some st => if isTypographySimilar st prop then qadd acc (mkRat 2 10) else acc
      | none => acc) 0
  let score := spacingProps.foldl
    (fun acc prop =>
      match node.info.absoluteBoundingBox with
      | some bb => if isSpacingSimilar bb prop then qadd acc (mkRat 1 10) else acc
      | none => acc) typScore
  let totalChecks := typographyProps.length + spacingProps.length
  if totalChecks > 0 then qdivN score totalChecks else 0

/-- Embedding of calculateRuleMatchScore: the strategy score over the
lowercased name and selector (hybrid weighting 0.4/0.4/0.2), plus the
style-similarity bonus whenever the node has a fills attribute
(rule.properties, an array, is always truthy in the source guard). -/
def calculateRuleMatchScore (node : FigmaNode) (rule : CSSRule)
    (options : EnhancementOptions) : ℚ :=
  let selector := strLower rule.selector
  let nodeName := strLower node.info.name
  let strategyScore :=
    match options.mappingStrategy with
    | .byName => calculateNameMatchScore nodeName selector
    | .byClass => calculateClassMatchScore nodeName selector
    | .byId => calculateIdMatchScore nodeName selector
    | .hybrid =>
      qadd (qadd (qmul (calculateNameMatchScore nodeName selector) (mkRat 4 10))
                 (qmul (calculateClassMatchScore nodeName selector) (mkRat 4 10)))
           (qmul (calculateIdMatchScore nodeName selector) (mkRat 2 10))
  if node.info.fills.isSome then
    qadd strategyScore (calculateStyleSimilarityScore node rule options)
  else strategyScore

/-- Embedding of findMatchingCSSRules: the rules with strictly positive
match score, sorted by descending (recomputed) score with the stable sort of
Array.prototype.sort. -/
def findMatchingCSSRules (node : FigmaNode) (cssRules : List CSSRule)
    (options : EnhancementOptions) : List CSSRule :=
  sortGeBy (fun rule => calculateRuleMatchScore node rule options)
    (cssRules.filter (fun rule => qltB 0 (calculateRuleMatchScore node rule options)))

/-- The bare generic tag selectors that trigger the confidence discount. -/
def genericSelectors : List String := ["div", "span", "p", "h1", "h2", "h3"]

/-- Embedding of calculateMappingConfidence: mean match score over the
matched rules, times 1.2 when some selector contains the node name
case-insensitively, times 0.8 when some selector is a bare generic tag,
clipped above at 1. -/
def calculateMappingConfidence (node : FigmaNode) (rules : List CSSRule)
    (options : EnhancementOptions) : ℚ :=
  let avgScore := qdivN
    (rules.foldl (fun sum rule => qadd sum (calculateRuleMatchScore node rule options)) 0)
    rules.length
  let boosted :=
    if rules.any (fun rule => includesB (strLower rule.selector) (strLower node.info.name))
    then qmul avgScore (mkRat 12 10) else avgScore
  let discounted :=
    if rules.any (fun rule => genericSelectors.contains rule.selector)
    then qmul boosted (mkRat 8 10) else boosted
  qmin discounted 1

/-- Embedding of determineMappingMethod, driven by the top-ranked selector
(or the empty string when no rule matched). -/
def determineMappingMethod (node : FigmaNode) (rules : List CSSRule)
    (options : EnhancementOptions) : MappingMethod :=
  let selector := match rules.head? with
    | some r => r.selector
    | none => ""
  if includesB selector "#" then .byId
  else if includesB selector "." then .byClass
  else if includesB (strLower selector) (strLower node.info.name) then .byName
  else if options.enableAutoMapping then .auto
  else .manual

/-- The forEach body of createNodeMappings over the pre-order node list: a
node with matching rules whose confidence reaches minConfidence contributes
one mapping, every other node contributes none. -/
def mappingsOfNodes (cssRules : List CSSRule) (options : EnhancementOptions) :
    List FigmaNode → List NodeCSSMapping
  | [] => []
  | node :: rest =>
    if (findMatchingCSSRules node cssRules options).isEmpty then
      mappingsOfNodes cssRules options rest
    else
      if qleB options.minConfidence
          (calculateMappingConfidence node (findMatchingCSSRules node cssRules options) options) then
        { nodeId := node.info.id, nodeName := node.info.name, nodeType := node.info.type,
          cssRules := findMatchingCSSRules node cssRules options,
          confidence :=
            calculateMappingConfidence node (findMatchingCSSRules node cssRules options) options,
          mappingMethod :=
            determineMappingMethod node (findMatchingCSSRules node cssRules options) options }
          :: mappingsOfNodes cssRules options rest
      else mappingsOfNodes cssRules options rest

/-- Embedding of createNodeMappings. -/
def createNodeMappings (document : FigmaNode) (cssRules : List CSSRule)
    (options : EnhancementOptions) : List NodeCSSMapping :=
  mappingsOfNodes cssRules options (getAllNodes document)

/-- Math.round as floor(q + 1/2) (JavaScript rounds half toward positive
infinity); the denominator of a Rat is positive, so Int.fdiv of num by den
is the floor. -/
def jsRound (q : ℚ) : ℤ :=
  let h := qadd q (mkRat 1 2)
  Int.fdiv h.num h.den

/-- Embedding of extractFigmaColor: the first SOLID fill carrying a colour
yields rgb(r, g, b) with each channel scaled by 255 and rounded. -/
def extractFigmaColor (fills : List Paint) : Option String :=
  if fills.isEmpty then none
  else
    match fills.find? (fun fill => fill.type == "SOLID") with
    | some fill =>
      match fill.color with
      | some c =>
        some ("rgb(" ++ toString (jsRound (qmul c.r (qofN 255))) ++ ", "
          ++ toString (jsRound (qmul c.g (qofN 255))) ++ ", "
          ++ toString (jsRound (qmul c.b (qofN 255))) ++ ")")
      | none => none
    | none => none

/-- Hex digit class [0-9a-fA-F]. -/
def isHexDigit (c : Char) : Bool :=
  c.isDigit || ('a' ≤ c && c ≤ 'f') || ('A' ≤ c && c ≤ 'F')

/-- Scanner for extractCSSColor: the first (leftmost) match of the
alternation #hex6 | #hex3 | rgb(non-empty) | rgba(non-empty) | letter-run,
alternatives tried in source order at each position.  When a position
starts none of the alternatives the scan advances one character.  Fuel is
the input length. -/
def extractColorF : ℕ → List Char → Option (List Char)
  | 0, _ => none
  | _ + 1, [] => none
  | fuel + 1, c :: rest =>
    if c == '#' then
      let hex := rest.takeWhile isHexDigit
      if hex.length ≥ 6 then some ('#' :: hex.take 6)
      else if hex.length ≥ 3 then some ('#' :: hex.take 3)
      else extractColorF fuel rest
    else
      let parenMatch : String → Option (List Char) := fun opener =>
        if isPrefB opener.toList (c :: rest) then
          let tl := (c :: rest).drop opener.length
          let inner := tl.takeWhile (fun d => !(d == ')'))
          if inner.isEmpty then none
          else
            match tl.dropWhile (fun d => !(d == ')')) with
            | ')' :: _ => some (opener.toList ++ inner ++ [')'])
            | _ => none
        else none
      match parenMatch "rgb(" with
      | some m => some m
      | none =>
        match parenMatch "rgba(" with
        | some m => some m
        | none =>
          if c.isAlpha then some ((c :: rest).takeWhile Char.isAlpha)
          else extractColorF fuel rest

/-- Embedding of extractCSSColor. -/
def extractCSSColor (value : String) : Option String :=
  (extractColorF value.toList.length value.toList).map (fun l => ⟨l⟩)

/-- Embedding of areColorsEqual: case-insensitive string equality. -/
def areColorsEqual (color1 color2 : String) : Bool :=
  strLower color1 == strLower color2

/-- Decimal rendering of a rational JavaScript number.  The engine formats
only Figma font sizes and weights here, integers in every input considered;
integers render exactly as in JS.  The non-integer fallback differs from the
shortest-decimal rendering of JS doubles and is exercised by no claim. -/
def ratToDisplay (q : ℚ) : String :=
  if q.den = 1 then toString q.num else toString q.num ++ "/" ++ toString q.den

/-- Embedding of extractFigmaTypography: numeric attributes are truthy when
present and non-zero; an empty fontFamily string is falsy and yields null. -/
def extractFigmaTypography (style : TypeStyle) (property : String) : Option String :=
  if property == "font-size" then
    match style.fontSize with
    | some v => if v = 0 then none else some (ratToDisplay v ++ "px")
    | none => none
  else if property == "font-weight" then
    match style.fontWeight with
    | some v => if v = 0 then none else some (ratToDisplay v)
    | none => none
  else if property == "font-family" then
    match style.fontFamily with
    | some f => if f = "" then none else some f
    | none => none
  else none

/-- Embedding of getConflictSeverity: medium when both colour strings
contain rgb, low otherwise. -/
def getConflictSeverity (figmaValue cssValue : String) : Severity :=
  if includesB figmaValue "rgb" && includesB cssValue "rgb" then .medium else .low

/-- Embedding of detectPropertyConflict: the colour branch first (property
name containing 'color', fills present, colours not ignored; a conflict
needs both extracted colours present and unequal), then the typography
branch (font-size/weight/family with a truthy Figma value differing as a
string from the declared value). -/
def detectPropertyConflict (node : FigmaNode) (prop : CSSProperty)
    (options : EnhancementOptions) : Option StyleConflict :=
  let colorConflict : Option StyleConflict :=
    if includesB prop.property "color" && node.info.fills.isSome && !options.ignoreColors then
      match node.info.fills with
      | some fills =>
        match extractFigmaColor fills, extractCSSColor prop.value with
        | some figmaColor, some cssColor =>
          if areColorsEqual figmaColor cssColor then none
          else some
            { type := .color, property := prop.property, figmaValue := figmaColor,
              cssValue := cssColor, severity := getConflictSeverity figmaColor cssColor,
              suggestion := "Consider using Figma color: " ++ figmaColor }
        | _, _ => none
      | none => none
    else none
  match colorConflict with
  | some c => some c
  | none =>
    if (prop.property == "font-size" || prop.property == "font-weight" ||
        prop.property == "font-family")
        && node.info.style.isSome && !options.ignoreTypography then
      match node.info.style with
      | some st =>
        match extractFigmaTypography st prop.property with
        | some figmaValue =>
          if prop.value = figmaValue then none
          else some
            { type := .typography, property := prop.property, figmaValue := figmaValue,
              cssValue := prop.value, severity := .medium,
              suggestion := "Consider using Figma typography: " ++ figmaValue }
        | none => none
      | none => none
    else none

/-- Embedding of detectConflicts: for every mapping whose node is found in
the tree, every property of every matched rule is checked, in
mapping-then-rule-then-property order. -/
def detectConflicts (mappings : List NodeCSSMapping) (document : FigmaNode)
    (options : EnhancementOptions) : List StyleConflict :=
  let allNodes := getAllNodes document
  mappings.flatMap (fun mapping =>
    match allNodes.find? (fun n => n.info.id == mapping.nodeId) with
    | none => []
    | some node =>
      mapping.cssRules.flatMap (fun rule =>
        rule.properties.filterMap (fun prop => detectPropertyConflict node prop options)))

/-- Arity of the getAllNodes method.  Line 450 of the source divides by
this.getAllNodes.length: the length property of the function object, which
is its count of parameters before the first one with a default (1), not the
number of nodes in the tree. -/
def getAllNodesArity : ℕ := 1

def noMappingsSuggestion : String :=
  "No CSS mappings found. Consider adjusting your CSS selectors to match Figma node names."

def lowCoverageSuggestion : String :=
  "Low CSS coverage. Consider using more specific selectors or enabling auto-mapping."

def lowConfidenceSuggestion : String :=
  "Many mappings have low confidence. Consider switching to a different mapping strategy."

/-- Embedding of generateSuggestions.  The low-coverage branch compares
mappings.length / getAllNodesArity (see getAllNodesArity) with 0.3, so with
a non-empty mapping list the quotient is at least 1 and the branch can
never fire. -/
def generateSuggestions (mappings : List NodeCSSMapping) (conflicts : List StyleConflict)
    (options : EnhancementOptions) : List String :=
  let coverageSuggestions :=
    if mappings.length = 0 then [noMappingsSuggestion]
    else if qltB (qdivN (qofN mappings.length) getAllNodesArity) (mkRat 3 10) then
      [lowCoverageSuggestion]
    else []
  let conflictSuggestions :=
    if conflicts.length > 0 then
      let highSeverityConflicts := conflicts.filter (fun c =>
        match c.severity with
        | .high => true
        | _ => false)
      if highSeverityConflicts.length > 0 then
        [toString highSeverityConflicts.length ++
          " high-severity conflicts found. Review color and typography differences."]
      else []
    else []
  let strategySuggestions :=
    let lowConfidenceMappings := mappings.filter (fun m => qltB m.confidence (mkRat 7 10))
    if qltB (qmul (qofN mappings.length) (mkRat 5 10)) (qofN lowConfidenceMappings.length) then
      [lowConfidenceSuggestion]
    else []
  (coverageSuggestions ++ conflictSuggestions ++ strategySuggestions).take options.maxSuggestions

/-- True when some evaluated (node, rule) pair reaches the misspelled
areColorssimilar call.  createNodeMappings scores every rule against every
node of the tree before anything is returned, so enhance throws the
TypeError exactly when some pair satisfies simThrows. -/
def enhanceThrows (document : FigmaNode) (cssRules : List CSSRule)
    (options : EnhancementOptions) : Bool :=
  (getAllNodes document).any (fun node =>
    cssRules.any (fun rule => simThrows node rule options))

/-- Embedding of CSSEnhancer.enhance.  startTime and endTime stand for the
two performance.now() readings.  error parseFailed models the explicit
throw on an invalid parse (unreachable because the embedded parser always
reports isValid = true); error typeErr models the TypeError raised on the
misspelled method call (see simThrows).  The enhancedCode output is
presentational templating not modelled in the result (see
CSSEnhancementResult). -/
def enhance (figmaData : FigmaApiResponse) (cssText : String)
    (options : EnhancementOptions) (startTime endTime : ℚ) :
    Except EnhanceErr CSSEnhancementResult :=
  let cssParseResult := CSSParser.parse cssText
  if !cssParseResult.isValid then .error .parseFailed
  else if enhanceThrows figmaData.document cssParseResult.rules options then .error .typeErr
  else
    let mappingResults := createNodeMappings figmaData.document cssParseResult.rules options
    let conflicts := detectConflicts mappingResults figmaData.document options
    let totalNodes := (getAllNodes figmaData.document).length
    .ok
      { mappingResults := mappingResults,
        coverage := qdivN (qofN mappingResults.length) totalNodes,
        conflicts := conflicts,
        suggestions := generateSuggestions mappingResults conflicts options,
        statistics :=
          { totalNodes := totalNodes, mappedNodes := mappingResults.length,
            cssRules := cssParseResult.rules.length, conflicts := conflicts.length,
            processingTime := qsub endTime startTime } }

/-- The option defaults of the enhance signature. -/
def defaultOptions : EnhancementOptions :=
  { strictMatching := false, ignoreColors := false, ignoreTypography := false,
    ignoreSpacing := false, enableAutoMapping := true, mappingStrategy := .hybrid,
    minConfidence := mkRat 5 10, maxSuggestions := 10 }

end CSSEnhancer

/-! ## Concrete inputs used by the claims -/

open CSSEnhancer

/-- Projection of an ok result, with a fallback for the error case; the
closed theorems use it to name the concrete result of a successful
enhance run. -/
def okOr (d : CSSEnhancementResult) :
    Except EnhanceErr CSSEnhancementResult → CSSEnhancementResult
  | .ok r => r
  | .error _ => d

/-- Fallback result (never actually selected in the theorems below). -/
def emptyResult : CSSEnhancementResult :=
  { mappingResults := [], coverage := 0, conflicts := [], suggestions := [],
    statistics :=
      { totalNodes := 0, mappedNodes := 0, cssRules := 0, conflicts := 0,
        processingTime := 0 } }

/-- A childless design node with the given attributes. -/
def mkLeaf (id name ntype : String) (fills : Option (List Paint)) : FigmaNode :=
  ⟨{ id := id, name := name, type := ntype, fills := fills, style := none,
     absoluteBoundingBox := none }, .nil⟩

/-- An authoritative solid fill of colour rgb(0, 0, 255). -/
def solidBlue : List Paint :=
  [{ type := "SOLID", color := some { r := 0, g := 0, b := 1 } }]

/-- The tree of end-to-end scenarios 1 and 2: a single root named Header
with an authoritative solid blue fill. -/
def headerTree : FigmaApiResponse := ⟨mkLeaf "1:1" "Header" "FRAME" (some solidBlue)⟩

/-- A stylesheet declaring a colour for the header class. -/
def c1Css : String := ".header \x7b color: red; \x7d"

/-- The stylesheet of end-to-end scenario 2. -/
def scenario2Css : String := ".header \x7b color: rgb(255,0,0); font-size: 18px; \x7d"

/-- A four-node tree whose root (named header) is the only node the
stylesheet below maps: the three children score 0.2 under the hybrid
strategy and are discarded by the 0.5 confidence threshold, so exactly one
node in four is covered. -/
def c7Tree : FigmaApiResponse :=
  ⟨⟨{ id := "r", name := "header", type := "FRAME", fills := none, style := none,
      absoluteBoundingBox := none },
    Forest.ofList [mkLeaf "c1" "x1" "TEXT" none, mkLeaf "c2" "x2" "TEXT" none,
      mkLeaf "c3" "x3" "TEXT" none]⟩⟩

/-- A stylesheet with no colour-like property (so the misspelled-method
TypeError is not reached) matching the root of c7Tree. -/
def c7Css : String := ".header \x7b margin: 0; \x7d"

/-- A single fill-less node, for runs that must complete normally. -/
def plainTree : FigmaApiResponse := ⟨mkLeaf "p1" "panel" "FRAME" none⟩

/-- The unterminated rule block of end-to-end scenario 4. -/
def unterminatedCss : String := ".foo \x7b color: red;"

/-- A declaration written with an !important suffix. -/
def importantCss : String := ".a \x7b color: red !important; \x7d"

/-- Defaults used by the closed instances below. -/
def dummyMapping : NodeCSSMapping :=
  { nodeId := "", nodeName := "", nodeType := "", cssRules := [], confidence := 0,
    mappingMethod := .manual }

def dummyRule : CSSRule :=
  { selector := "", properties := [], specificity := 0, line := 0, column := 0 }

def dummyProp : CSSProperty :=
  { property := "", value := "", important := true, line := 0 }

/-- The components of an enhancement result the determinism claim ranges
over: mapping order and scores, coverage, conflicts, suggestions —
everything except the wall-clock statistics. -/
def resultView (r : CSSEnhancementResult) :
    List NodeCSSMapping × ℚ × List StyleConflict × List String :=
  (r.mappingResults, r.coverage, r.conflicts, r.suggestions)

/-- The concrete successful run used by several closed instances below. -/
def c7Result : CSSEnhancementResult :=
  okOr emptyResult (CSSEnhancer.enhance c7Tree c7Css CSSEnhancer.defaultOptions 0 0)

/-- The single mapping of that run. -/
def c7Mapping : NodeCSSMapping := c7Result.mappingResults.headD dummyMapping

/-! ## Supporting lemmas -/

theorem qleB_iff (a b : ℚ) : qleB a b = true ↔ a ≤ b := by
  rw [qleB, decide_eq_true_iff, Rat.le_def]

theorem qltB_iff (a b : ℚ) : qltB a b = true ↔ a < b := by
  rw [qltB, decide_eq_true_iff, Rat.lt_def]

theorem qadd_eq (a b : ℚ) : qadd a b = a + b := by
  rw [qadd, Rat.mkRat_eq_div]
  push_cast
  conv_rhs => rw [← Rat.num_div_den a, ← Rat.num_div_den b]
  rw [div_add_div _ _ (by exact_mod_cast a.den_nz) (by exact_mod_cast b.den_nz)]
  ring_nf

theorem qmul_eq (a b : ℚ) : qmul a b = a * b := by
  rw [qmul, Rat.mkRat_eq_div]
  push_cast
  conv_rhs => rw [← Rat.num_div_den a, ← Rat.num_div_den b]
  rw [div_mul_div_comm]

theorem qsub_eq (a b : ℚ) : qsub a b = a - b := by
  rw [qsub, Rat.mkRat_eq_div]
  push_cast
  conv_rhs => rw [← Rat.num_div_den a, ← Rat.num_div_den b]
  rw [div_sub_div _ _ (by exact_mod_cast a.den_nz) (by exact_mod_cast b.den_nz)]
  ring_nf

theorem qdivN_eq (a : ℚ) (n : ℕ) : qdivN a n = a / (n : ℚ) := by
  rw [qdivN, Rat.mkRat_eq_div]
  push_cast
  conv_rhs => rw [← Rat.num_div_den a]
  rw [div_div]

theorem qofN_eq (n : ℕ) : qofN n = (n : ℚ) := by
  rw [qofN, Rat.mkRat_eq_div]
  simp

theorem qmin_eq (a b : ℚ) : qmin a b = min a b := by
  rw [qmin, min_def]
  by_cases h : a ≤ b
  · rw [if_pos ((qleB_iff a b).mpr h), if_pos h]
  · rw [if_neg (fun hc => h ((qleB_iff a b).mp hc)), if_neg h]

theorem qleB_false_iff (a b : ℚ) : qleB a b = false ↔ b < a := by
  rw [← not_le]
  constructor
  · intro h hc
    exact absurd ((qleB_iff a b).mpr hc) (by simp [h])
  · intro h
    cases hq : qleB a b with
    | false => rfl
    | true => exact absurd ((qleB_iff a b).mp hq) h

/-- A split never produces an empty list of pieces (the JS split of any
string has at least one element). -/
theorem srGo_ne_nil (p : Char → Bool) :
    ∀ (l : List Char) (inRun : Bool) (acc : List Char), srGo p inRun acc l ≠ [] := by
  intro l
  induction l with
  | nil => intro inRun acc; simp [srGo]
  | cons c rest ih =>
    intro inRun acc
    by_cases hc : p c = true
    · cases inRun with
      | true => simpa [srGo, hc] using ih true []
      | false => simp [srGo, hc]
    · simp only [Bool.not_eq_true] at hc
      simpa [srGo, hc] using ih false (c :: acc)

theorem splitRuns_ne_nil (p : Char → Bool) (s : String) : splitRuns p s ≠ [] :=
  srGo_ne_nil p s.toList false []

theorem mem_insertGe {α : Type} (f : α → ℚ) (a x : α) :
    ∀ l : List α, x ∈ insertGe f a l ↔ x = a ∨ x ∈ l := by
  intro l
  induction l with
  | nil => simp [insertGe]
  | cons b t ih =>
    by_cases h : qleB (f b) (f a) = true
    · simp [insertGe, h]
    · simp only [Bool.not_eq_true] at h
      simp only [insertGe, h]
      simp only [Bool.false_eq_true, if_false, List.mem_cons, ih]
      tauto

theorem insertGe_ne_nil {α : Type} (f : α → ℚ) (a : α) (l : List α) :
    insertGe f a l ≠ [] := by
  cases l with
  | nil => simp [insertGe]
  | cons b t =>
    rw [insertGe]
    by_cases h : qleB (f b) (f a) = true <;> simp [h]

theorem mem_sortGeBy {α : Type} (f : α → ℚ) (x : α) :
    ∀ l : List α, x ∈ sortGeBy f l ↔ x ∈ l := by
  intro l
  induction l with
  | nil => simp [sortGeBy]
  | cons a t ih => rw [sortGeBy, mem_insertGe, ih, List.mem_cons]

theorem sortGeBy_eq_nil_iff {α : Type} (f : α → ℚ) (l : List α) :
    sortGeBy f l = [] ↔ l = [] := by
  cases l with
  | nil => simp [sortGeBy]
  | cons a t =>
    simp only [sortGeBy]
    constructor
    · intro h; exact absurd h (insertGe_ne_nil f a (sortGeBy f t))
    · intro h; cases h

theorem pairwise_insertGe {α : Type} (f : α → ℚ) (a : α) :
    ∀ l : List α, l.Pairwise (fun x y => f y ≤ f x) →
      (insertGe f a l).Pairwise (fun x y => f y ≤ f x) := by
  intro l
  induction l with
  | nil => intro _; simp [insertGe]
  | cons b t ih =>
    intro h
    rw [insertGe]
    by_cases hq : qleB (f b) (f a) = true
    · rw [if_pos hq]
      refine List.Pairwise.cons ?_ h
      intro x hx
      rcases List.mem_cons.mp hx with hx | hx
      · exact hx ▸ (qleB_iff _ _).mp hq
      · exact le_trans (List.rel_of_pairwise_cons h hx) ((qleB_iff _ _).mp hq)
    · rw [if_neg (by simp [hq])]
      simp only [Bool.not_eq_true] at hq
      refine List.Pairwise.cons ?_ (ih (List.Pairwise.of_cons h))
      intro x hx
      rcases (mem_insertGe f a x t).mp hx with hx | hx
      · exact hx ▸ le_of_lt ((qleB_false_iff _ _).mp hq)
      · exact List.rel_of_pairwise_cons h hx

theorem pairwise_sortGeBy {α : Type} (f : α → ℚ) :
    ∀ l : List α, (sortGeBy f l).Pairwise (fun x y => f y ≤ f x) := by
  intro l
  induction l with
  | nil => simp [sortGeBy]
  | cons a t ih => exact pairwise_insertGe f a (sortGeBy f t) ih

theorem filter_insertGe {α : Type} (f : α → ℚ) (a : α) (c : ℚ) :
    ∀ l : List α,
      (insertGe f a l).filter (fun x => f x == c) =
        if f a == c then a :: l.filter (fun x => f x == c)
        else l.filter (fun x => f x == c) := by
  intro l
  induction l with
  | nil =>
    by_cases h : f a = c
    · have h' : (f a == c) = true := beq_iff_eq.mpr h
      simp [insertGe, List.filter_cons, h']
    · have h' : (f a == c) = false := beq_eq_false_iff_ne.mpr h
      simp [insertGe, List.filter_cons, h']
  | cons b t ih =>
    rw [insertGe]
    by_cases hq : qleB (f b) (f a) = true
    · rw [if_pos hq]
      by_cases ha : f a = c
      · have ha' : (f a == c) = true := beq_iff_eq.mpr ha
        simp [List.filter_cons, ha']
      · have ha' : (f a == c) = false := beq_eq_false_iff_ne.mpr ha
        simp [List.filter_cons, ha']
    · rw [if_neg (by simp [hq])]
      simp only [Bool.not_eq_true] at hq
      have hba : f a < f b := (qleB_false_iff _ _).mp hq
      by_cases ha : f a = c
      · have ha' : (f a == c) = true := beq_iff_eq.mpr ha
        have hb : ¬ f b = c := by
          intro hbc
          exact absurd (ha ▸ hbc ▸ hba) (lt_irrefl _)
        have hb' : (f b == c) = false := beq_eq_false_iff_ne.mpr hb
        simp [List.filter_cons, ha', hb', ih]
      · have ha' : (f a == c) = false := beq_eq_false_iff_ne.mpr ha
        by_cases hb : f b = c
        · have hb' : (f b == c) = true := beq_iff_eq.mpr hb
          simp [List.filter_cons, ha', hb', ih]
        · have hb' : (f b == c) = false := beq_eq_false_iff_ne.mpr hb
          simp [List.filter_cons, ha', hb', ih]

theorem filter_sortGeBy {α : Type} (f : α → ℚ) (c : ℚ) :
    ∀ l : List α,
      (sortGeBy f l).filter (fun x => f x == c) = l.filter (fun x => f x == c) := by
  intro l
  induction l with
  | nil => simp [sortGeBy]
  | cons a t ih =>
    rw [sortGeBy, filter_insertGe, ih]
    by_cases ha : f a = c
    · have ha' : (f a == c) = true := beq_iff_eq.mpr ha
      simp [List.filter_cons, ha']
    · have ha' : (f a == c) = false := beq_eq_false_iff_ne.mpr ha
      simp [List.filter_cons, ha']

theorem mappingsOfNodes_confidence (cssRules : List CSSRule) (options : EnhancementOptions) :
    ∀ (ns : List FigmaNode) (m : NodeCSSMapping), m ∈ mappingsOfNodes cssRules options ns →
      options.minConfidence ≤ m.confidence := by
  intro ns
  induction ns with
  | nil => intro m hm; simp [mappingsOfNodes] at hm
  | cons node rest ih =>
    intro m hm
    rw [mappingsOfNodes] at hm
    split at hm
    · exact ih m hm
    · split at hm
      · next hC =>
        rcases List.mem_cons.mp hm with h | h
        · subst h; exact (qleB_iff _ _).mp hC
        · exact ih m h
      · exact ih m hm

theorem mappingsOfNodes_length_le (cssRules : List CSSRule) (options : EnhancementOptions) :
    ∀ ns : List FigmaNode, (mappingsOfNodes cssRules options ns).length ≤ ns.length := by
  intro ns
  induction ns with
  | nil => simp [mappingsOfNodes]
  | cons node rest ih =>
    rw [mappingsOfNodes]
    split
    · exact le_trans ih (Nat.le_succ _)
    · split
      · simpa using Nat.succ_le_succ ih
      · exact le_trans ih (Nat.le_succ _)

theorem mappingsOfNodes_shape (cssRules : List CSSRule) (options : EnhancementOptions) :
    ∀ (ns : List FigmaNode) (m : NodeCSSMapping), m ∈ mappingsOfNodes cssRules options ns →
      ∃ n, n ∈ ns ∧ m.nodeId = n.info.id ∧
        m.cssRules = findMatchingCSSRules n cssRules options ∧
        (findMatchingCSSRules n cssRules options).isEmpty = false := by
  intro ns
  induction ns with
  | nil => intro m hm; simp [mappingsOfNodes] at hm
  | cons node rest ih =>
    intro m hm
    rw [mappingsOfNodes] at hm
    split at hm
    · obtain ⟨n, hn, h1, h2, h3⟩ := ih m hm
      exact ⟨n, List.mem_cons_of_mem _ hn, h1, h2, h3⟩
    · next hNE =>
      split at hm
      · rcases List.mem_cons.mp hm with h | h
        · subst h
          exact ⟨node, List.mem_cons_self _ _, rfl, rfl, Bool.not_eq_true _ ▸ hNE⟩
        · obtain ⟨n, hn, h1, h2, h3⟩ := ih m h
          exact ⟨n, List.mem_cons_of_mem _ hn, h1, h2, h3⟩
      · obtain ⟨n, hn, h1, h2, h3⟩ := ih m hm
        exact ⟨n, List.mem_cons_of_mem _ hn, h1, h2, h3⟩

theorem enhance_ok_elim {figmaData : FigmaApiResponse} {cssText : String}
    {options : EnhancementOptions} {t1 t2 : ℚ} {r : CSSEnhancementResult}
    (h : CSSEnhancer.enhance figmaData cssText options t1 t2 = .ok r) :
    r.mappingResults =
      createNodeMappings figmaData.document (CSSParser.parse cssText).rules options ∧
    r.coverage =
      qdivN (qofN r.mappingResults.length) (getAllNodes figmaData.document).length := by
  rw [CSSEnhancer.enhance] at h
  simp only [show (CSSParser.parse cssText).isValid = true from rfl, Bool.not_true,
    Bool.false_eq_true, if_false] at h
  cases hT : enhanceThrows figmaData.document (CSSParser.parse cssText).rules options with
  | true => rw [hT] at h; simp at h
  | false =>
    rw [hT] at h
    simp only [Bool.false_eq_true, if_false, Except.ok.injEq] at h
    subst h
    exact ⟨rfl, rfl⟩

theorem countP_special_chars (l : List Char) :
    l.countP (fun c => c == '.' || c == ':' || c == '[') =
      l.count '.' + l.count ':' + l.count '[' := by
  induction l with
  | nil => simp
  | cons c t ih =>
    simp only [List.countP_cons, List.count_cons, ih]
    by_cases h1 : c = '.'
    · subst h1; simp; omega
    · by_cases h2 : c = ':'
      · subst h2; simp [beq_eq_false_iff_ne.mpr h1]; omega
      · by_cases h3 : c = '['
        · subst h3
          simp [beq_eq_false_iff_ne.mpr h1, beq_eq_false_iff_ne.mpr h2]
          omega
        · have b1 : (c == '.') = false := beq_eq_false_iff_ne.mpr h1
          have b2 : (c == ':') = false := beq_eq_false_iff_ne.mpr h2
          have b3 : (c == '[') = false := beq_eq_false_iff_ne.mpr h3
          simp [b1, b2, b3]

/-! ## Claims -/

/-- C4: for every selector string the parser's specificity equals 100 times
the count of hash characters, plus 10 times the count of dot, colon and
open-bracket characters, plus the count of alphabetic characters anywhere in
the string; in particular the selector #id.class scores 100 + 10 + its
letter count (117). -/
theorem specificity_formula :
    (∀ selector : String,
      CSSParser.calculateSpecificity selector =
        100 * selector.toList.count '#' +
        10 * (selector.toList.count '.' + selector.toList.count ':' +
          selector.toList.count '[') +
        1 * selector.toList.countP (fun c => c.isAlpha)) ∧
    CSSParser.calculateSpecificity "#id.class" =
      100 + 10 + "#id.class".toList.countP (fun c => c.isAlpha) ∧
    CSSParser.calculateSpecificity "#id.class" = 117 := by
  refine ⟨?_, by decide, by decide⟩
  intro selector
  rw [CSSParser.calculateSpecificity, countP_special_chars]
  have : selector.toList.countP (fun c => c == '#') = selector.toList.count '#' := rfl
  rw [this]
  ring

/-- C1 (code_bug): the claim says enhance propagates an error exactly when
the parser reports isValid = false.  On this input the parser reports
isValid = true, yet enhance throws: scoring the rule against the filled
node reaches the misspelled method call areColorssimilar (line 240 of
cssEnhancer.ts) and raises a TypeError. -/
theorem enhance_throws_despite_valid_parse :
    (CSSParser.parse c1Css).isValid = true ∧
    CSSEnhancer.enhance headerTree c1Css CSSEnhancer.defaultOptions 0 0 =
      .error .typeErr := by
  exact ⟨rfl, by decide⟩

/-- C2 (code_bug): on the scenario-2 input (stylesheet declaring
color: rgb(255,0,0) and font-size, tree root Header with authoritative
solid fill rgb(0, 0, 255)) the claim expects a result with exactly one
medium color conflict; the code instead throws the TypeError from the
misspelled areColorssimilar call before any result is built.  The embedded
colour extractors confirm the values the conflict would have compared. -/
theorem scenario2_throws :
    CSSEnhancer.enhance headerTree scenario2Css CSSEnhancer.defaultOptions 0 0 =
      .error .typeErr ∧
    CSSEnhancer.extractFigmaColor solidBlue = some "rgb(0, 0, 255)" ∧
    CSSEnhancer.extractCSSColor "rgb(255,0,0)" = some "rgb(255,0,0)" := by
  exact ⟨by decide, by decide, by decide⟩

/-- C3: for a fixed tree, stylesheet and options, two enhance runs (with
arbitrary wall-clock readings, the only non-input dependence) agree on
every component the claim ranges over: the mapping list in order with its
confidence scores, the coverage, the conflicts and the suggestions. -/
theorem enhance_deterministic (figmaData : FigmaApiResponse) (cssText : String)
    (options : EnhancementOptions) (t1 t2 t1' t2' : ℚ) :
    (CSSEnhancer.enhance figmaData cssText options t1 t2).map resultView =
      (CSSEnhancer.enhance figmaData cssText options t1' t2').map resultView := by
  rw [CSSEnhancer.enhance, CSSEnhancer.enhance]
  simp only [show (CSSParser.parse cssText).isValid = true from rfl, Bool.not_true,
    Bool.false_eq_true, if_false]
  cases hT : enhanceThrows figmaData.document (CSSParser.parse cssText).rules options <;>
    rfl

/-- C5: on every successful enhance run, every mapping kept in the result
has confidence at least the configured minConfidence; nodes whose computed
confidence falls below the threshold contribute no mapping at all, this
being the only way a mapping enters the list. -/
theorem mapping_confidence_filtered (figmaData : FigmaApiResponse) (cssText : String)
    (options : EnhancementOptions) (t1 t2 : ℚ) (r : CSSEnhancementResult)
    (h : CSSEnhancer.enhance figmaData cssText options t1 t2 = .ok r) :
    ∀ m ∈ r.mappingResults, options.minConfidence ≤ m.confidence := by
  intro m hm
  obtain ⟨hmr, -⟩ := enhance_ok_elim h
  rw [hmr, createNodeMappings] at hm
  exact mappingsOfNodes_confidence _ _ _ m hm

/-- C5 witness: the mapping kept by the concrete run on c7Tree has
confidence 0.72, at least the 0.5 default threshold. -/
theorem mapping_confidence_filtered_witness :
    CSSEnhancer.defaultOptions.minConfidence ≤ c7Mapping.confidence :=
  mapping_confidence_filtered c7Tree c7Css CSSEnhancer.defaultOptions 0 0 c7Result (by decide)
    c7Mapping (by decide)

/-- C6: on every successful enhance run the coverage lies in [0, 1]; the
divisor is the node count of the tree, which always includes the root and
is therefore positive, so the zero-node division-by-zero case cannot
arise. -/
theorem coverage_bounds :
    (∀ (figmaData : FigmaApiResponse) (cssText : String) (options : EnhancementOptions)
      (t1 t2 : ℚ) (r : CSSEnhancementResult),
      CSSEnhancer.enhance figmaData cssText options t1 t2 = .ok r →
      0 ≤ r.coverage ∧ r.coverage ≤ 1) ∧
    (∀ n : FigmaNode, 0 < (CSSEnhancer.getAllNodes n).length) := by
  constructor
  · intro figmaData cssText options t1 t2 r h
    obtain ⟨hmr, hc⟩ := enhance_ok_elim h
    have hlen : r.mappingResults.length ≤ (getAllNodes figmaData.document).length := by
      rw [hmr, createNodeMappings]
      exact mappingsOfNodes_length_le _ _ _
    have hposN : 0 < (getAllNodes figmaData.document).length := by
      rw [getAllNodes]
      exact Nat.succ_pos _
    have hpos : (0 : ℚ) < ((getAllNodes figmaData.document).length : ℚ) := by
      exact_mod_cast hposN
    rw [hc, qdivN_eq, qofN_eq]
    constructor
    · exact div_nonneg (Nat.cast_nonneg _) (le_of_lt hpos)
    · rw [div_le_one hpos]
      exact_mod_cast hlen
  · intro n
    rw [CSSEnhancer.getAllNodes]
    exact Nat.succ_pos _

/-- C6 witness: the concrete run on c7Tree has coverage 1/4, and its tree
has four nodes. -/
theorem coverage_bounds_witness :
    (0 ≤ (okOr emptyResult
        (CSSEnhancer.enhance c7Tree c7Css CSSEnhancer.defaultOptions 0 0)).coverage ∧
      (okOr emptyResult
        (CSSEnhancer.enhance c7Tree c7Css CSSEnhancer.defaultOptions 0 0)).coverage ≤ 1) ∧
    0 < (CSSEnhancer.getAllNodes c7Tree.document).length :=
  ⟨coverage_bounds.1 c7Tree c7Css CSSEnhancer.defaultOptions 0 0 _ (by decide),
   coverage_bounds.2 c7Tree.document⟩

/-- C7 (code_bug): the claim says a successful run with a non-empty mapping
list and coverage below 0.3 suggests improving the mapping strategy.  On
this input enhance succeeds with one mapping out of four nodes (coverage
1/4 < 0.3) yet returns no suggestion at all: the low-coverage branch at
line 450 of cssEnhancer.ts divides mappings.length by
this.getAllNodes.length — the arity of the method (1), not the node count —
so with a non-empty mapping list the quotient is at least 1 and the branch
can never fire. -/
theorem low_coverage_suggestion_missing :
    CSSEnhancer.enhance c7Tree c7Css CSSEnhancer.defaultOptions 0 0 = .ok c7Result ∧
    c7Result.mappingResults ≠ [] ∧
    c7Result.coverage < mkRat 3 10 ∧
    CSSEnhancer.lowCoverageSuggestion ∉ c7Result.suggestions ∧
    c7Result.suggestions = [] := by
  refine ⟨by decide, by decide, (qltB_iff _ _).mp (by decide), by decide, by decide⟩

/-- C8 counterexample: the claim asserts the unterminated fragment yields a
warning; the warnings list of the parse is in fact empty (the block-scan
regex simply never matches the fragment, and warnings are only pushed for
matched-but-empty rules). -/
theorem unterminated_block_no_warning :
    (CSSParser.parse unterminatedCss).warnings = [] := by decide

/-- C8 (amended): for the stylesheet text containing an unterminated rule
block, parse returns zero rules for the fragment with no diagnostics at all
(warnings and errors both empty), isValid remains true, and enhance on that
text completes normally without throwing, whatever the tree and options. -/
theorem unterminated_block_parses_and_enhances :
    (CSSParser.parse unterminatedCss).rules = [] ∧
    (CSSParser.parse unterminatedCss).warnings = [] ∧
    (CSSParser.parse unterminatedCss).errors = [] ∧
    (CSSParser.parse unterminatedCss).isValid = true ∧
    (∀ (figmaData : FigmaApiResponse) (options : EnhancementOptions) (t1 t2 : ℚ),
      (CSSEnhancer.enhance figmaData unterminatedCss options t1 t2).isOk = true) := by
  refine ⟨by decide, by decide, by decide, by decide, ?_⟩
  intro figmaData options t1 t2
  rw [CSSEnhancer.enhance]
  simp only [show (CSSParser.parse unterminatedCss).isValid = true from rfl, Bool.not_true,
    Bool.false_eq_true, if_false]
  have hT : enhanceThrows figmaData.document (CSSParser.parse unterminatedCss).rules
      options = false := by
    rw [show (CSSParser.parse unterminatedCss).rules = [] from by decide]
    simp [enhanceThrows]
  rw [hT]
  rfl

/-- C9: on every successful enhance run, every mapping's matchedRules list
is non-empty, contains only rules scoring strictly positively for the
mapping's node, is sorted by descending match score, and keeps equal-score
rules in their original parse order (for every positive score value, the
equal-score sublist equals the corresponding sublist of the parsed rule
list). -/
theorem matched_rules_sorted (figmaData : FigmaApiResponse) (cssText : String)
    (options : EnhancementOptions) (t1 t2 : ℚ) (r : CSSEnhancementResult)
    (h : CSSEnhancer.enhance figmaData cssText options t1 t2 = .ok r) :
    ∀ m ∈ r.mappingResults, ∃ n,
      n ∈ CSSEnhancer.getAllNodes figmaData.document ∧
      m.nodeId = n.info.id ∧
      m.cssRules ≠ [] ∧
      (∀ rule ∈ m.cssRules, 0 < calculateRuleMatchScore n rule options) ∧
      m.cssRules.Pairwise (fun a b =>
        calculateRuleMatchScore n b options ≤ calculateRuleMatchScore n a options) ∧
      (∀ c : ℚ, 0 < c →
        m.cssRules.filter (fun rule => calculateRuleMatchScore n rule options == c) =
          (CSSParser.parse cssText).rules.filter
            (fun rule => calculateRuleMatchScore n rule options == c)) := by
  intro m hm
  obtain ⟨hmr, -⟩ := enhance_ok_elim h
  rw [hmr, createNodeMappings] at hm
  obtain ⟨n, hn, hid, hrules, hne⟩ := mappingsOfNodes_shape _ _ _ m hm
  refine ⟨n, hn, hid, ?_, ?_, ?_, ?_⟩
  · rw [hrules]
    intro hnil
    rw [hnil] at hne
    simp at hne
  · intro rule hr
    rw [hrules, findMatchingCSSRules] at hr
    have hr2 := (mem_sortGeBy _ _ _).mp hr
    exact (qltB_iff _ _).mp (List.mem_filter.mp hr2).2
  · rw [hrules, findMatchingCSSRules]
    exact pairwise_sortGeBy _ _
  · intro c hc
    rw [hrules, findMatchingCSSRules, filter_sortGeBy, List.filter_filter]
    apply List.filter_congr
    intro rule _
    by_cases hsc : calculateRuleMatchScore n rule options = c
    · have h1 : (calculateRuleMatchScore n rule options == c) = true := beq_iff_eq.mpr hsc
      have h2 : qltB 0 (calculateRuleMatchScore n rule options) = true :=
        (qltB_iff _ _).mpr (by rw [hsc]; exact hc)
      simp [h1, h2]
    · have h1 : (calculateRuleMatchScore n rule options == c) = false :=
        beq_eq_false_iff_ne.mpr hsc
      simp [h1]

/-- C9 witness: the mapping of the concrete c7 run, its node being the tree
root. -/
theorem matched_rules_sorted_witness :
    ∃ n,
      n ∈ CSSEnhancer.getAllNodes c7Tree.document ∧
      c7Mapping.nodeId = n.info.id ∧
      c7Mapping.cssRules ≠ [] ∧
      (∀ rule ∈ c7Mapping.cssRules,
        0 < calculateRuleMatchScore n rule CSSEnhancer.defaultOptions) ∧
      c7Mapping.cssRules.Pairwise (fun a b =>
        calculateRuleMatchScore n b CSSEnhancer.defaultOptions ≤
          calculateRuleMatchScore n a CSSEnhancer.defaultOptions) ∧
      (∀ c : ℚ, 0 < c →
        c7Mapping.cssRules.filter
            (fun rule => calculateRuleMatchScore n rule CSSEnhancer.defaultOptions == c) =
          (CSSParser.parse c7Css).rules.filter
            (fun rule => calculateRuleMatchScore n rule CSSEnhancer.defaultOptions == c)) :=
  matched_rules_sorted c7Tree c7Css CSSEnhancer.defaultOptions 0 0 c7Result (by decide)
    c7Mapping (by decide)

theorem parseLoop_properties (ms : List (List Char × List Char)) :
    ∀ (line : ℕ) (rule : CSSRule), rule ∈ (CSSParser.parseLoop ms line).1 →
      ∃ d l, rule.properties = CSSParser.parsePropertiesEnhanced d l := by
  induction ms with
  | nil => intro line rule h; simp [CSSParser.parseLoop] at h
  | cons m rest ih =>
    intro line rule h
    obtain ⟨preRaw, bodyRaw⟩ := m
    rw [CSSParser.parseLoop] at h
    split at h
    · exact ih line rule h
    · rcases List.mem_cons.mp h with h | h
      · exact ⟨_, _, congrArg CSSRule.properties h⟩
      · exact ih (line + 1) rule h

theorem parsePropertiesEnhanced_important (d : String) (l : ℕ) :
    ∀ p ∈ CSSParser.parsePropertiesEnhanced d l, p.important = false := by
  intro p hp
  rw [CSSParser.parsePropertiesEnhanced] at hp
  obtain ⟨x, -, hx⟩ := List.mem_map.mp hp
  rw [← hx]

/-- C10: for every stylesheet text, every declaration of every parsed rule
has important = false — the optional (!important) capture group can never
match because the greedy value pattern consumes everything up to the
semicolon — and a declaration written with an !important suffix instead
carries the suffix inside its value string, as the concrete instance
shows. -/
theorem important_always_false :
    (∀ cssText : String, ∀ rule ∈ (CSSParser.parse cssText).rules,
      ∀ p ∈ rule.properties, p.important = false) ∧
    (CSSParser.parse importantCss).rules.map
      (fun rule => rule.properties.map (fun p => (p.property, p.value, p.important))) =
      [[("color", "red !important", false)]] := by
  constructor
  · intro cssText rule hr p hp
    have hr' : rule ∈
        (CSSParser.parseLoop
          (CSSParser.scanRuleBlocks (CSSParser.stripComments cssText.toList)) 1).1 := hr
    obtain ⟨d, l, hdl⟩ := parseLoop_properties _ 1 rule hr'
    rw [hdl] at hp
    exact parsePropertiesEnhanced_important d l p hp
  · decide

/-- C10 witness: the declaration of the concrete !important stylesheet. -/
theorem important_always_false_witness :
    (((CSSParser.parse importantCss).rules.headD dummyRule).properties.headD
      dummyProp).important = false :=
  important_always_false.1 importantCss
    ((CSSParser.parse importantCss).rules.headD dummyRule) (by decide)
    (((CSSParser.parse importantCss).rules.headD dummyRule).properties.headD dummyProp)
    (by decide)
